import Mathlib

/-!
# Verification of the Mental Health & Lifestyle cleaning script and dashboard

A shallow embedding, in Lean 4, of the data-cleaning pipeline in
`clean_mental_health_dataset.py` and of the dataset-loading and chart-guard
logic in `app.py`, together with proofs of the spec's claims about them.

Modelling conventions:
* A Python string is a list of Unicode code points (`PyStr := List Nat`);
  the character-class tests (`isWS`, `isAlphaC`) and the case maps
  (`upC`, `lowC`) cover the ASCII range, which is the range the script's
  category values and regexes actually exercise.
* A dataframe cell is `Cell`: missing (`null`), numeric (`num`, over `ℚ`),
  or text (`str`).
* A dataframe is a `Frame`: a list of column names and a list of rows,
  each row a list of cells positioned like the columns.
* Numbers rendered by Python's `str()` are modelled by `ratStr`; the claims
  only depend on the rendered digits containing no whitespace and no letters.
-/

namespace MHClean

/-- A Python string, as its sequence of Unicode code points. -/
abbrev PyStr := List Nat

/-- Code points of a Lean string literal, for writing concrete `PyStr` values. -/
def codes (s : String) : PyStr := s.toList.map Char.toNat

/-- Whitespace test matching Python's `str.strip` / regex `\s` on ASCII:
space, tab, LF, VT, FF, CR. -/
def isWS (c : Nat) : Bool :=
  c == 32 || c == 9 || c == 10 || c == 11 || c == 12 || c == 13

/-- ASCII letter test, modelling Python's `str.isalpha` on the ASCII range. -/
def isAlphaC (c : Nat) : Bool :=
  (65 ≤ c && c ≤ 90) || (97 ≤ c && c ≤ 122)

/-- ASCII upper-casing of one code point. -/
def upC (c : Nat) : Nat := if 97 ≤ c && c ≤ 122 then c - 32 else c

/-- ASCII lower-casing of one code point. -/
def lowC (c : Nat) : Nat := if 65 ≤ c && c ≤ 90 then c + 32 else c

/-- Drop leading whitespace, modelling the left half of `str.strip()`. -/
def stripStart (l : PyStr) : PyStr := l.dropWhile isWS

/-- Drop trailing whitespace, modelling the right half of `str.strip()`. -/
def stripEnd : PyStr → PyStr
  | [] => []
  | c :: rest =>
    let r := stripEnd rest
    if isWS c && r.isEmpty then [] else c :: r

/-- Python's `str.strip()`: drop leading and trailing whitespace. -/
def strip (l : PyStr) : PyStr := stripEnd (stripStart l)

/-- Worker for `collapse`: the Boolean says whether we are inside a
whitespace run whose single replacement space was already emitted. -/
def collapseAux : Bool → PyStr → PyStr
  | _, [] => []
  | inRun, c :: rest =>
    if isWS c then (if inRun then [] else [32]) ++ collapseAux true rest
    else c :: collapseAux false rest

/-- `re.sub(r"\s+", " ", ·)`: replace each whitespace run by one space. -/
def collapse (l : PyStr) : PyStr := collapseAux false l

/-- Worker for `titleCase`: the Boolean says whether the previous code point
was a letter (Python title-cases the first letter after any non-letter). -/
def titleAux : Bool → PyStr → PyStr
  | _, [] => []
  | prev, c :: rest =>
    if isAlphaC c then (if prev then lowC c else upC c) :: titleAux true rest
    else c :: titleAux false rest

/-- Python's `str.title()`. -/
def titleCase (l : PyStr) : PyStr := titleAux false l

/-- The string transform applied by `normalize_text` to one non-null value:
`.str.strip().str.replace(r"\s+", " ", regex=True).str.title()`. -/
def normalizeStr (l : PyStr) : PyStr := titleCase (collapse (strip l))

/-- One dataframe cell: missing (NaN), a number, or a string. -/
inductive Cell where
  | null
  | num (q : ℚ)
  | str (s : PyStr)
deriving DecidableEq, Repr

/-- Is this cell missing? (pandas `isna`). -/
def Cell.isNull : Cell → Bool
  | .null => true
  | _ => false

/-- Decimal digits of a positive number, least significant first. -/
def natDigitsRev : Nat → List Nat
  | 0 => []
  | n + 1 =>
    (48 + (n + 1) % 10) :: natDigitsRev ((n + 1) / 10)
decreasing_by exact Nat.div_lt_self (Nat.succ_pos n) (by omega)

/-- Decimal rendering of a natural number, as code points. -/
def natStr (n : Nat) : PyStr := if n = 0 then [48] else (natDigitsRev n).reverse

/-- Decimal rendering of an integer, as code points. -/
def intStr (i : Int) : PyStr :=
  if i < 0 then 45 :: natStr i.natAbs else natStr i.natAbs

/-- Rendering of a rational cell by Python's `str()`, as code points.
(The claims depend only on the result containing no whitespace and no
letters, which holds for any decimal/fraction rendering.) -/
def ratStr (q : ℚ) : PyStr :=
  if q.den = 1 then intStr q.num else intStr q.num ++ [47] ++ natStr q.den

/-- `astype(str)` on one cell (only ever applied under a not-null mask). -/
def cellToStr : Cell → PyStr
  | .null => codes "nan"
  | .num q => ratStr q
  | .str s => s

/-- The per-cell action of `normalize_text`: NaN is left untouched, any
other value is stringified, stripped, whitespace-collapsed and title-cased. -/
def normalizeCell (c : Cell) : Cell :=
  if c = .null then c else .str (normalizeStr (cellToStr c))

/-- `normalize_text(s)` from the cleaning script, on a column of cells:
values under the not-null mask are normalized, NaNs kept as they are. -/
def normalize_text (l : List Cell) : List Cell := l.map normalizeCell

/-- A dataframe: named columns and rows of cells positioned like the columns. -/
structure Frame where
  cols : List String
  rows : List (List Cell)
deriving DecidableEq, Repr

/-- The cell of a row under the first column with the given name
(missing column or short row reads as NaN). -/
def getCell : List String → List Cell → String → Cell
  | [], _, _ => .null
  | _, [], _ => .null
  | c :: cs, v :: vs, name => if c = name then v else getCell cs vs name

/-- Rewrite a row's cells under every column with the given name
(`df[col] = f(df[col])` restricted to one row). -/
def mapCellAt : List String → List Cell → String → (Cell → Cell) → List Cell
  | [], vs, _, _ => vs
  | _, [], _, _ => []
  | c :: cs, v :: vs, name, f =>
    (if c = name then f v else v) :: mapCellAt cs vs name f

/-! ## The cleaning script's configuration tables -/

/-- `NUMERIC_BOUNDS`: realistic closed bounds per numeric column, in the
dict's insertion order. -/
def NUMERIC_BOUNDS : List (String × ℚ × ℚ) :=
  [("Age", 10, 100),
   ("Sleep Hours", 3, 12),
   ("Screen Time per Day (Hours)", 0, 10),
   ("Social Interaction Score", 0, 10),
   ("Happiness Score", 0, 10),
   ("Work Hours per Week", 0, 84)]

/-- `ESSENTIAL_NOT_NULL`: the columns that must not be missing.
The Python value is a set; only membership matters. -/
def ESSENTIAL_NOT_NULL : List String :=
  ["Age", "Gender", "Country", "Sleep Hours", "Stress Level",
   "Screen Time per Day (Hours)", "Social Interaction Score",
   "Work Hours per Week", "Happiness Score", "Exercise Level",
   "Diet Type", "Mental Health Condition"]

/-- `SAFE_FILTER_SETS`: allowed value sets per categorical column, in the
dict's insertion order. -/
def SAFE_FILTER_SETS : List (String × List PyStr) :=
  [("Stress Level", [codes "Low", codes "Moderate", codes "High"]),
   ("Exercise Level", [codes "Low", codes "Moderate", codes "High"]),
   ("Gender", [codes "Male", codes "Female", codes "Other", codes "Non-Binary",
               codes "Nonbinary", codes "Prefer Not To Say"])]

/-- `NORMALIZE_TITLE`: columns whose text is normalized.
The Python value is a set; the normalizations of distinct columns commute,
so a fixed iteration order is faithful. -/
def NORMALIZE_TITLE : List String :=
  ["Gender", "Stress Level", "Exercise Level", "Diet Type",
   "Mental Health Condition", "Country"]

/-! ## The pipeline stages of `main` -/

/-- `[c for c in want if c in cols]`. -/
def existingOf (want cols : List String) : List String :=
  want.filter fun c => cols.contains c

/-- The row predicate of `df.dropna(subset=existing_essential)`:
every present essential column is non-null. -/
def essRowOK (cols : List String) (r : List Cell) : Bool :=
  (existingOf ESSENTIAL_NOT_NULL cols).all fun c => !(getCell cols r c).isNull

/-- The row predicate of `df[col].isin(allowed)`: the cell is a string
belonging to the allowed set (NaN and numbers are not in a string set). -/
def isinOK (name : String) (allowed : List PyStr) (cols : List String)
    (r : List Cell) : Bool :=
  match getCell cols r name with
  | .str s => allowed.contains s
  | _ => false

/-- The row predicate of `df[col].between(lo, hi, inclusive="both")`:
the cell is a number within the closed interval (comparisons against NaN
are false). -/
def betweenOK (name : String) (lo hi : ℚ) (cols : List String)
    (r : List Cell) : Bool :=
  match getCell cols r name with
  | .num q => decide (lo ≤ q) && decide (q ≤ hi)
  | _ => false

/-- Stage 1: `df.dropna(subset=existing_essential)`. -/
def dropnaEssential (d : Frame) : Frame :=
  { d with rows := d.rows.filter (essRowOK d.cols) }

/-- One step of stage 2: `if col in df.columns: df[col] = normalize_text(df[col])`. -/
def normalizeCol (name : String) (d : Frame) : Frame :=
  if d.cols.contains name then
    { d with rows := d.rows.map fun r => mapCellAt d.cols r name normalizeCell }
  else d

/-- One step of stage 3: `if col in df.columns: df = df[df[col].isin(allowed)]`. -/
def filterIsin (name : String) (allowed : List PyStr) (d : Frame) : Frame :=
  if d.cols.contains name then
    { d with rows := d.rows.filter (isinOK name allowed d.cols) }
  else d

/-- One step of stage 4:
`if col in df.columns: df = df[df[col].between(lo, hi, inclusive="both")]`. -/
def filterBetween (name : String) (lo hi : ℚ) (d : Frame) : Frame :=
  if d.cols.contains name then
    { d with rows := d.rows.filter (betweenOK name lo hi d.cols) }
  else d

/-- Stage 2 of `main`: normalize the categorical text columns. -/
def normalizeStage (d : Frame) : Frame :=
  NORMALIZE_TITLE.foldl (fun d c => normalizeCol c d) d

/-- Stage 3 of `main`: keep only rows whose safe-filtered categorical
columns hold allowed values. -/
def categoricalStage (d : Frame) : Frame :=
  SAFE_FILTER_SETS.foldl (fun d p => filterIsin p.1 p.2 d) d

/-- Stage 4 of `main`: enforce the numeric bounds. -/
def numericStage (d : Frame) : Frame :=
  NUMERIC_BOUNDS.foldl (fun d p => filterBetween p.1 p.2.1 p.2.2 d) d

/-- The whole cleaning pipeline of `main`, from the freshly read dataframe
to the dataframe written to the output CSV. -/
def runPipeline (d : Frame) : Frame :=
  numericStage (categoricalStage (normalizeStage (dropnaEssential d)))

/-- The four row counts `main` reports: `initial_rows`, `after_dropna`,
`after_categorical`, `after_numeric`. -/
def pipelineCounts (d : Frame) : Nat × Nat × Nat × Nat :=
  (d.rows.length,
   (dropnaEssential d).rows.length,
   (categoricalStage (normalizeStage (dropnaEssential d))).rows.length,
   (runPipeline d).rows.length)

/-- The six report lines `main` prints on success, verbatim. -/
def cleaningReport (initialRows afterDropna afterCategorical afterNumeric : Nat)
    (outputPath : String) : List String :=
  ["=== Cleaning Report ===",
   "Input rows:            " ++ toString initialRows,
   "After dropna (essential cols only): " ++ toString afterDropna,
   "After categorical fix: " ++ toString afterCategorical,
   "After numeric bounds:  " ++ toString afterNumeric,
   "Output saved to:       " ++ outputPath]

/-! ## The cleaning script's argument parser

`argparse` with two options, `--input` (short form `-i`) and `--output`
(short form `-o`), both required. The model covers the space-separated
invocation form `FLAG VALUE`; an unrecognized token or a missing required
option is a parse error. -/

/-- Which option the previous token opened, if any. -/
inductive Pending where
  | nothing
  | inp
  | out
deriving DecidableEq, Repr

/-- Token-by-token argument scan: `pend` holds the option waiting for its
value, `i`/`o` hold the values seen so far. -/
def parseLoop : List String → Pending → Option String → Option String →
    Except Unit (String × String)
  | [], .nothing, some i, some o => .ok (i, o)
  | [], _, _, _ => .error ()
  | a :: rest, .nothing, i, o =>
    if a = "--input" || a = "-i" then parseLoop rest .inp i o
    else if a = "--output" || a = "-o" then parseLoop rest .out i o
    else .error ()
  | a :: rest, .inp, _, o => parseLoop rest .nothing (some a) o
  | a :: rest, .out, i, _ => parseLoop rest .nothing i (some a)

/-- `ap.parse_args()` on a given argument vector. -/
def parseArgs (args : List String) : Except Unit (String × String) :=
  parseLoop args .nothing none none

/-- The observable behaviour of a successful run of `main`: the cleaned
frame written to the output path, and the printed report. -/
def cliMain (args : List String) (input : Frame) :
    Except Unit (Frame × List String) :=
  match parseArgs args with
  | .error e => .error e
  | .ok (_, o) =>
    .ok (runPipeline input,
      cleaningReport (pipelineCounts input).1 (pipelineCounts input).2.1
        (pipelineCounts input).2.2.1 (pipelineCounts input).2.2.2 o)

end MHClean

namespace MHApp

open MHClean

/-! ## The dashboard (`app.py`)

File-system access is abstracted by two parameters: `pathExists` models
`os.path.exists` and `readCSV` models `pd.read_csv` on an existing path. -/

/-- `candidate_paths` in `load_data`, for a given `os.path.dirname(__file__)`. -/
def candidatePaths (baseDir : String) : List String :=
  [baseDir ++ "/data/Mental_Health_Lifestyle_CLEAN.csv",
   baseDir ++ "/Mental_Health_Lifestyle_CLEAN.csv",
   "/mnt/data/Mental_Health_Lifestyle_CLEAN.csv",
   "/mnt/data/Mental_Health_Lifestyle_CLEAN (1).csv"]

/-- The `for p in candidate_paths: if p and os.path.exists(p)` loop:
the first truthy (non-empty) path that exists. -/
def firstExisting (pathExists : String → Bool) : List String → Option String
  | [] => none
  | p :: rest =>
    if !p.isEmpty && pathExists p then some p else firstExisting pathExists rest

/-- The `FileNotFoundError` message raised when no candidate path exists. -/
def fileNotFoundMsg : String :=
  "Dataset not found. Please place 'Mental_Health_Lifestyle_CLEAN.csv' either " ++
  "in the project root or in a 'data' folder."

/-- `load_data()`: return the CSV contents of the first existing candidate
path, or raise `FileNotFoundError`. -/
def load_data (pathExists : String → Bool) (readCSV : String → Frame)
    (baseDir : String) : Except String Frame :=
  match firstExisting pathExists (candidatePaths baseDir) with
  | some p => .ok (readCSV p)
  | none => .error fileNotFoundMsg

/-- Outcome of the top-level `try: df = load_data() except FileNotFoundError`:
either the session renders with the loaded frame, or `st.error` plus
`st.stop()` halt rendering for the session (the process keeps serving). -/
inductive Session where
  | rendered (df : Frame)
  | halted (errMsg : String)
deriving DecidableEq, Repr

/-- The top-level load with its error handler. -/
def appStart (pathExists : String → Bool) (readCSV : String → Frame)
    (baseDir : String) : Session :=
  match load_data pathExists readCSV baseDir with
  | .ok df => .rendered df
  | .error m => .halted m

/-- What a chart handler does: draw the chart, show a warning or an
informational message, or escape with an uncaught `KeyError`. -/
inductive Render where
  | chart
  | warn (msg : String)
  | info (msg : String)
  | raiseKeyError (col : String)
deriving DecidableEq, Repr

/-- Does this outcome escape with an exception? -/
def Render.isRaise : Render → Bool
  | .raiseKeyError _ => true
  | _ => false

/-- The module-level preparation of the loaded frame's columns:
`Stress_Level_Code` is added when `Stress Level` is present, `Age_Group`
when `Age` is present and `Age_Group` is not. -/
def prepCols (cols : List String) : List String :=
  let c1 := if cols.contains "Stress Level" then cols ++ ["Stress_Level_Code"]
            else cols
  if cols.contains "Age" && !c1.contains "Age_Group" then c1 ++ ["Age_Group"]
  else c1

/-- `numeric_cols` in `chart_scatter_matrix_sleep_exercise_stress`. -/
def scatterMatrixNumericCols (cols : List String) : List String :=
  ["Sleep Hours", "Screen Time per Day (Hours)", "Happiness Score"].filter
    fun c => cols.contains c

/-- `chart_scatter_matrix_sleep_exercise_stress(df_local)`, with the
multiselect's value passed in as `selectedDims`; every column the plot call
touches is behind a presence guard, so the tail renders a chart. -/
def chart_scatter_matrix (d : Frame) (selectedDims : List String) : Render :=
  if d.rows.isEmpty then .warn "No data available for selected filters."
  else if (scatterMatrixNumericCols d.cols).length < 2 then
    .info "Not enough numeric columns for scatter matrix."
  else if selectedDims.length < 2 then .info "Please select at least two variables."
  else .chart

/-- `chart_heatmap_social_media_mood(df_local)`: the screen-time and
exercise columns are guarded; the pivot's value column falls back to the
first column when `Happiness Score` is absent, so the tail renders. -/
def chart_heatmap (d : Frame) : Render :=
  if d.rows.isEmpty then .warn "No data available for selected filters."
  else if !d.cols.contains "Screen Time per Day (Hours)" then
    .info "Screen time column not found in dataset."
  else if !d.cols.contains "Exercise Level" then
    .info "Exercise Level column not found in dataset."
  else .chart

/-- `chart_violin_wellbeing_activity(df_local)`, with the gender
selectbox's value passed in as `selGender`; when a specific gender is
selected the filter indexes the `Gender` column, which raises `KeyError`
if that column is absent (the selectbox only offers non-`All` values when
it is present). -/
def chart_violin (d : Frame) (selGender : PyStr) : Render :=
  if d.rows.isEmpty then .warn "No data available for selected filters."
  else if !(d.cols.contains "Happiness Score" && d.cols.contains "Exercise Level") then
    .info "Required columns for violin plot not found (Happiness Score, Exercise Level)."
  else if selGender ≠ codes "All" && !d.cols.contains "Gender" then
    .raiseKeyError "Gender"
  else
    let plotRows := if selGender = codes "All" then d.rows
      else d.rows.filter fun r => getCell d.cols r "Gender" == Cell.str selGender
    if plotRows.isEmpty then .warn "No rows after applying gender filter."
    else .chart

/-- The Member 1 scatter branch: its column accesses
(`df["Gender"].unique()`, `df["Age_Group"]`, `df["Sleep Hours"]`,
`df["Stress Level"]`) happen in this order with no presence guard, so the
first missing one escapes as a `KeyError`; `.chart` stands for the guarded
tail (scatter or no-data warning). -/
def member1ScatterBranch (cols : List String) : Render :=
  if !cols.contains "Gender" then .raiseKeyError "Gender"
  else if !cols.contains "Age_Group" then .raiseKeyError "Age_Group"
  else if !cols.contains "Sleep Hours" then .raiseKeyError "Sleep Hours"
  else if !cols.contains "Stress Level" then .raiseKeyError "Stress Level"
  else .chart

/-- The claim "no chart code path raises on a missing expected column",
over the modelled handlers: the three Member 3 chart functions (under the
UI's guarantee that a non-`All` gender is only selectable when `Gender`
is present) and the Member 1 scatter branch on the prepared columns. -/
def allChartsGuardMissingColumns : Prop :=
  (∀ d dims, (chart_scatter_matrix d dims).isRaise = false) ∧
  (∀ d, (chart_heatmap d).isRaise = false) ∧
  (∀ d sel, sel = codes "All" ∨ d.cols.contains "Gender" = true →
    (chart_violin d sel).isRaise = false) ∧
  (∀ cols, (member1ScatterBranch (prepCols cols)).isRaise = false)

end MHApp

namespace MHClean

/-! ## Auxiliary predicates used by the proofs -/

/-- Does the string start with a non-whitespace code point (or is empty)? -/
def headNonWS : PyStr → Bool
  | [] => true
  | c :: _ => !isWS c

/-- Does the string end with a non-whitespace code point (or is empty)? -/
def lastNonWS : PyStr → Bool
  | [] => true
  | [c] => !isWS c
  | _ :: c :: rest => lastNonWS (c :: rest)

/-- Whitespace normal form relative to the `collapseAux` state: every
whitespace code point is a single space not preceded by whitespace (and
not at the start when the state says a run is open). `wsOK b l` is exactly
the condition under which `collapseAux b` leaves `l` unchanged. -/
def wsOK : Bool → PyStr → Bool
  | _, [] => true
  | b, c :: rest =>
    if isWS c then !b && (c == 32) && wsOK true rest else wsOK false rest

/-- The spec's C2 claim, stated as written: every normalized categorical
column of every output row holds a title-cased value belonging to that
column's allowed set. -/
def claimCategoricalInAllowedSet : Prop :=
  ∀ d r, r ∈ (runPipeline d).rows → ∀ c ∈ NORMALIZE_TITLE,
    d.cols.contains c = true →
    ∃ s allowed, getCell d.cols r c = Cell.str s ∧ normalizeStr s = s ∧
      (c, allowed) ∈ SAFE_FILTER_SETS ∧ allowed.contains s = true

/-- A one-column, one-row frame whose `Country` value survives cleaning
although no allowed set constrains it. -/
def countryFrame : Frame :=
  { cols := ["Country"], rows := [[Cell.str (codes "Xyzland")]] }

/-- A small two-column frame used to witness the pipeline theorems on a
concrete input. -/
def demoFrame : Frame :=
  { cols := ["Age", "Gender"],
    rows := [[Cell.num 50, Cell.str (codes " maLe ")],
             [Cell.num 200, Cell.str (codes "Male")]] }

/-! ## Character-level facts -/

theorem isWS_upC (c : Nat) : isWS (upC c) = isWS c := by
  rw [Bool.eq_iff_iff]; unfold upC isWS; split <;> simp_all <;> omega

theorem isWS_lowC (c : Nat) : isWS (lowC c) = isWS c := by
  rw [Bool.eq_iff_iff]; unfold lowC isWS; split <;> simp_all <;> omega

theorem isAlphaC_upC (c : Nat) : isAlphaC (upC c) = isAlphaC c := by
  rw [Bool.eq_iff_iff]; unfold upC isAlphaC; split <;> simp_all <;> omega

theorem isAlphaC_lowC (c : Nat) : isAlphaC (lowC c) = isAlphaC c := by
  rw [Bool.eq_iff_iff]; unfold lowC isAlphaC; split <;> simp_all <;> omega

theorem upC_upC (c : Nat) : upC (upC c) = upC c := by
  unfold upC; split <;> simp_all <;> omega

theorem lowC_lowC (c : Nat) : lowC (lowC c) = lowC c := by
  unfold lowC; split <;> simp_all <;> omega

theorem not_isWS_of_isAlphaC (c : Nat) (h : isAlphaC c = true) : isWS c = false := by
  simp only [isAlphaC, Bool.or_eq_true, Bool.and_eq_true, decide_eq_true_eq] at h
  rw [Bool.eq_false_iff]
  intro hw
  simp only [isWS, Bool.or_eq_true, beq_iff_eq] at hw
  omega

/-- One-step unfolding of `titleAux` on a cons, with the next state
expressed as `isAlphaC c`. -/
theorem titleAux_cons (b : Bool) (c : Nat) (rest : PyStr) :
    titleAux b (c :: rest) =
      (if isAlphaC c then (if b then lowC c else upC c) else c) ::
        titleAux (isAlphaC c) rest := by
  cases h : isAlphaC c <;> simp [titleAux, h]

/-! ## Ends of the strip and collapse results are non-whitespace -/

theorem headNonWS_dropWhile (l : PyStr) :
    headNonWS (l.dropWhile isWS) = true := by
  induction l with
  | nil => rfl
  | cons c rest ih =>
    rw [List.dropWhile_cons]
    split
    · exact ih
    · next h => simp [headNonWS, h]

theorem headNonWS_stripEnd (l : PyStr) (h : headNonWS l = true) :
    headNonWS (stripEnd l) = true := by
  cases l with
  | nil => rfl
  | cons c rest =>
    rw [stripEnd]
    split
    · rfl
    · exact h

theorem headNonWS_strip (l : PyStr) : headNonWS (strip l) = true :=
  headNonWS_stripEnd _ (headNonWS_dropWhile l)

theorem lastNonWS_stripEnd (l : PyStr) : lastNonWS (stripEnd l) = true := by
  induction l with
  | nil => rfl
  | cons c rest ih =>
    rw [stripEnd]
    split
    · rfl
    · next h =>
      cases hr : stripEnd rest with
      | nil =>
        simp only [hr, List.isEmpty_nil, Bool.and_true, Bool.not_eq_true] at h
        simp [lastNonWS, h]
      | cons d r =>
        rw [lastNonWS]
        rw [hr] at ih
        exact ih

theorem lastNonWS_strip (l : PyStr) : lastNonWS (strip l) = true :=
  lastNonWS_stripEnd _

theorem dropWhile_eq_self_of_headNonWS (l : PyStr) (h : headNonWS l = true) :
    l.dropWhile isWS = l := by
  cases l with
  | nil => rfl
  | cons c rest =>
    simp only [headNonWS, Bool.not_eq_true'] at h
    rw [List.dropWhile_cons, if_neg (by simp [h])]

theorem stripEnd_eq_self_of_lastNonWS (l : PyStr) (h : lastNonWS l = true) :
    stripEnd l = l := by
  induction l with
  | nil => rfl
  | cons c rest ih =>
    cases rest with
    | nil =>
      simp only [lastNonWS, Bool.not_eq_true'] at h
      rw [stripEnd]
      simp [stripEnd, h]
    | cons d r =>
      rw [lastNonWS] at h
      rw [stripEnd, ih h]
      simp

theorem strip_eq_self (l : PyStr) (h1 : headNonWS l = true)
    (h2 : lastNonWS l = true) : strip l = l := by
  unfold strip stripStart
  rw [dropWhile_eq_self_of_headNonWS l h1, stripEnd_eq_self_of_lastNonWS l h2]

/-! ## Collapse: whitespace normal form -/

theorem lastNonWS_cons_of_ne_nil (c : Nat) (l : PyStr) (h : l ≠ []) :
    lastNonWS (c :: l) = lastNonWS l := by
  cases l with
  | nil => exact absurd rfl h
  | cons d r => rw [lastNonWS]

theorem collapseAux_ne_nil (l : PyStr) (b : Bool) (hne : l ≠ [])
    (h : lastNonWS l = true) : collapseAux b l ≠ [] := by
  induction l generalizing b with
  | nil => exact absurd rfl hne
  | cons c rest ih =>
    rw [collapseAux]
    split
    · next hws =>
      cases rest with
      | nil => simp only [lastNonWS, Bool.not_eq_true'] at h; rw [h] at hws; cases hws
      | cons d r =>
        rw [lastNonWS] at h
        rcases Bool.eq_false_or_eq_true b with hb | hb <;>
          simp [hb, ih true (by simp) h]
    · simp

theorem headNonWS_collapse (l : PyStr) (h : headNonWS l = true) :
    headNonWS (collapse l) = true := by
  cases l with
  | nil => rfl
  | cons c rest =>
    simp only [headNonWS, Bool.not_eq_true'] at h
    unfold collapse collapseAux
    rw [if_neg (by simp [h])]
    simp [headNonWS, h]

theorem lastNonWS_collapseAux (l : PyStr) (b : Bool) (h : lastNonWS l = true) :
    lastNonWS (collapseAux b l) = true := by
  induction l generalizing b with
  | nil => rfl
  | cons c rest ih =>
    rw [collapseAux]
    split
    · next hws =>
      cases rest with
      | nil => simp only [lastNonWS, Bool.not_eq_true'] at h; rw [h] at hws; cases hws
      | cons d r =>
        rw [lastNonWS] at h
        have hne : collapseAux true (d :: r) ≠ [] :=
          collapseAux_ne_nil _ true (by simp) h
        have htail := ih true h
        rcases Bool.eq_false_or_eq_true b with hb | hb
        · subst hb
          rw [if_pos rfl, List.nil_append]
          exact htail
        · subst hb
          rw [if_neg Bool.false_ne_true, List.singleton_append,
            lastNonWS_cons_of_ne_nil 32 _ hne]
          exact htail
    · next hws =>
      cases rest with
      | nil => simpa [collapseAux, lastNonWS] using h
      | cons d r =>
        rw [lastNonWS] at h
        have hne : collapseAux false (d :: r) ≠ [] :=
          collapseAux_ne_nil _ false (by simp) h
        rw [lastNonWS_cons_of_ne_nil c _ hne]
        exact ih false h

theorem collapseAux_eq_self_of_wsOK (l : PyStr) (b : Bool)
    (h : wsOK b l = true) : collapseAux b l = l := by
  induction l generalizing b with
  | nil => rfl
  | cons c rest ih =>
    rw [wsOK] at h
    rw [collapseAux]
    split
    · next hws =>
      rw [if_pos hws] at h
      simp only [Bool.and_eq_true, Bool.not_eq_true', beq_iff_eq] at h
      obtain ⟨⟨hb, hc⟩, hrest⟩ := h
      subst hb
      simp [hc, ih true hrest]
    · next hws =>
      rw [if_neg hws] at h
      rw [ih false h]

theorem wsOK_collapseAux (l : PyStr) (b : Bool) :
    wsOK b (collapseAux b l) = true := by
  induction l generalizing b with
  | nil => rfl
  | cons c rest ih =>
    rw [collapseAux]
    split
    · next hws =>
      rcases Bool.eq_false_or_eq_true b with hb | hb
      · subst hb
        rw [if_pos rfl, List.nil_append]
        exact ih true
      · subst hb
        rw [if_neg Bool.false_ne_true, List.singleton_append, wsOK,
          if_pos (by rfl)]
        simpa using ih true
    · next hws =>
      simp only [Bool.not_eq_true] at hws
      rw [wsOK, if_neg (by simp [hws])]
      exact ih false

theorem wsOK_titleAux (l : PyStr) (b b2 : Bool) :
    wsOK b (titleAux b2 l) = wsOK b l := by
  induction l generalizing b b2 with
  | nil => rfl
  | cons c rest ih =>
    rw [titleAux_cons]
    cases ha : isAlphaC c with
    | false =>
      rw [if_neg Bool.false_ne_true]
      rw [wsOK, wsOK]
      cases hws : isWS c with
      | true =>
        rw [if_pos rfl, if_pos rfl, ih true false]
      | false =>
        rw [if_neg Bool.false_ne_true, if_neg Bool.false_ne_true]
        exact ih false false
    | true =>
      have hws : isWS c = false := not_isWS_of_isAlphaC c ha
      have hws' : isWS (if b2 = true then lowC c else upC c) = false := by
        cases b2 <;> simp [isWS_upC, isWS_lowC, hws]
      rw [if_pos rfl]
      rw [wsOK, wsOK,
        if_neg (by rw [hws']; exact Bool.false_ne_true),
        if_neg (by rw [hws]; exact Bool.false_ne_true)]
      exact ih false true

/-! ## Title-casing preserves whitespace structure and is idempotent -/

theorem isWS_titleHead (b : Bool) (c : Nat) :
    isWS (if isAlphaC c then (if b then lowC c else upC c) else c) = isWS c := by
  cases ha : isAlphaC c with
  | false => rw [if_neg Bool.false_ne_true]
  | true =>
    rw [if_pos rfl]
    cases b <;> simp [isWS_upC, isWS_lowC]

theorem headNonWS_titleAux (l : PyStr) (b : Bool) :
    headNonWS (titleAux b l) = headNonWS l := by
  cases l with
  | nil => rfl
  | cons c rest =>
    rw [titleAux_cons]
    show (!isWS _) = (!isWS c)
    rw [isWS_titleHead]

theorem lastNonWS_titleAux (l : PyStr) (b : Bool) :
    lastNonWS (titleAux b l) = lastNonWS l := by
  induction l generalizing b with
  | nil => rfl
  | cons c rest ih =>
    cases rest with
    | nil =>
      rw [titleAux_cons]
      show (!isWS _) = (!isWS c)
      rw [isWS_titleHead]
    | cons d r =>
      rw [titleAux_cons, titleAux_cons, lastNonWS, lastNonWS, ← titleAux_cons]
      exact ih (isAlphaC c)

theorem titleAux_titleAux (l : PyStr) (b : Bool) :
    titleAux b (titleAux b l) = titleAux b l := by
  induction l generalizing b with
  | nil => rfl
  | cons c rest ih =>
    rw [titleAux_cons, titleAux_cons]
    cases ha : isAlphaC c with
    | false =>
      rw [if_neg Bool.false_ne_true]
      rw [if_neg (by rw [ha]; exact Bool.false_ne_true)]
      rw [ha, ih false]
    | true =>
      have ha' : isAlphaC (if b then lowC c else upC c) = true := by
        cases b <;> simp [isAlphaC_upC, isAlphaC_lowC, ha]
      rw [if_pos rfl, if_pos (by rw [ha']), ha', ih true]
      cases b with
      | false => rw [if_neg Bool.false_ne_true, if_neg Bool.false_ne_true, upC_upC]
      | true => rw [if_pos rfl, if_pos rfl, lowC_lowC]

/-- The normalization transform is idempotent: its image is exactly its
set of fixed points. -/
theorem normalizeStr_idem (l : PyStr) :
    normalizeStr (normalizeStr l) = normalizeStr l := by
  have hh : headNonWS (normalizeStr l) = true := by
    unfold normalizeStr titleCase
    rw [headNonWS_titleAux]
    exact headNonWS_collapse _ (headNonWS_strip l)
  have hl : lastNonWS (normalizeStr l) = true := by
    unfold normalizeStr titleCase
    rw [lastNonWS_titleAux]
    exact lastNonWS_collapseAux _ false (lastNonWS_strip l)
  have hcol : collapse (normalizeStr l) = normalizeStr l := by
    unfold normalizeStr titleCase collapse
    apply collapseAux_eq_self_of_wsOK
    rw [wsOK_titleAux]
    exact wsOK_collapseAux _ false
  show normalizeStr (normalizeStr l) = normalizeStr l
  unfold normalizeStr
  rw [show strip (titleCase (collapse (strip l))) = titleCase (collapse (strip l)) from
    strip_eq_self _ hh hl]
  rw [show collapse (titleCase (collapse (strip l))) = titleCase (collapse (strip l)) from hcol]
  unfold titleCase
  exact titleAux_titleAux _ false

/-! ## Number renderings contain no whitespace and no letters -/

theorem mem_natDigitsRev (n : Nat) : ∀ c ∈ natDigitsRev n, 48 ≤ c ∧ c ≤ 57 := by
  induction n using Nat.strong_induction_on with
  | _ n ih =>
    cases n with
    | zero => intro c hc; rw [natDigitsRev] at hc; cases hc
    | succ m =>
      intro c hc
      rw [natDigitsRev] at hc
      rcases List.mem_cons.mp hc with h | h
      · subst h
        constructor
        · omega
        · have : (m + 1) % 10 < 10 := Nat.mod_lt _ (by omega)
          omega
      · exact ih ((m + 1) / 10) (Nat.div_lt_self (Nat.succ_pos m) (by omega)) c h

theorem mem_natStr (n : Nat) : ∀ c ∈ natStr n, 48 ≤ c ∧ c ≤ 57 := by
  intro c hc
  unfold natStr at hc
  split at hc
  · rcases List.mem_singleton.mp hc with rfl
    omega
  · rw [List.mem_reverse] at hc
    exact mem_natDigitsRev n c hc

theorem mem_intStr (i : Int) : ∀ c ∈ intStr i, 45 ≤ c ∧ c ≤ 57 := by
  intro c hc
  unfold intStr at hc
  split at hc
  · rcases List.mem_cons.mp hc with h | h
    · omega
    · have := mem_natStr _ c h
      omega
  · have := mem_natStr _ c hc
    omega

theorem mem_ratStr (q : ℚ) : ∀ c ∈ ratStr q, 45 ≤ c ∧ c ≤ 57 := by
  intro c hc
  unfold ratStr at hc
  split at hc
  · exact mem_intStr _ c hc
  · rcases List.mem_append.mp hc with h | h
    · rcases List.mem_append.mp h with h2 | h2
      · exact mem_intStr _ c h2
      · rcases List.mem_singleton.mp h2 with rfl
        omega
    · have := mem_natStr _ c h
      omega

theorem isWS_false_of_symbolish (c : Nat) (h1 : 45 ≤ c) (h2 : c ≤ 57) :
    isWS c = false := by
  rw [Bool.eq_false_iff]
  intro hw
  simp only [isWS, Bool.or_eq_true, beq_iff_eq] at hw
  omega

theorem isAlphaC_false_of_symbolish (c : Nat) (h1 : 45 ≤ c) (h2 : c ≤ 57) :
    isAlphaC c = false := by
  rw [Bool.eq_false_iff]
  intro hw
  simp only [isAlphaC, Bool.or_eq_true, Bool.and_eq_true, decide_eq_true_eq] at hw
  omega

theorem headNonWS_of_noWS (l : PyStr) (h : ∀ c ∈ l, isWS c = false) :
    headNonWS l = true := by
  cases l with
  | nil => rfl
  | cons c rest => simp [headNonWS, h c (List.mem_cons_self c _)]

theorem lastNonWS_of_noWS (l : PyStr) (h : ∀ c ∈ l, isWS c = false) :
    lastNonWS l = true := by
  induction l with
  | nil => rfl
  | cons c rest ih =>
    cases rest with
    | nil => simp [lastNonWS, h c (List.mem_cons_self c _)]
    | cons d r =>
      rw [lastNonWS]
      exact ih fun x hx => h x (List.mem_cons_of_mem c hx)

theorem collapseAux_eq_self_of_noWS (l : PyStr) (b : Bool)
    (h : ∀ c ∈ l, isWS c = false) : collapseAux b l = l := by
  induction l generalizing b with
  | nil => rfl
  | cons c rest ih =>
    rw [collapseAux, if_neg (by rw [h c (List.mem_cons_self c _)]; exact Bool.false_ne_true)]
    rw [ih false fun x hx => h x (List.mem_cons_of_mem c hx)]

theorem titleAux_eq_self_of_noAlpha (l : PyStr) (b : Bool)
    (h : ∀ c ∈ l, isAlphaC c = false) : titleAux b l = l := by
  induction l generalizing b with
  | nil => rfl
  | cons c rest ih =>
    rw [titleAux_cons,
      if_neg (by rw [h c (List.mem_cons_self c _)]; exact Bool.false_ne_true)]
    rw [h c (List.mem_cons_self c _), ih false fun x hx => h x (List.mem_cons_of_mem c hx)]

theorem normalizeStr_eq_self_of_inert (l : PyStr)
    (h : ∀ c ∈ l, isWS c = false ∧ isAlphaC c = false) :
    normalizeStr l = l := by
  unfold normalizeStr titleCase collapse
  rw [strip_eq_self l (headNonWS_of_noWS l fun c hc => (h c hc).1)
    (lastNonWS_of_noWS l fun c hc => (h c hc).1)]
  rw [collapseAux_eq_self_of_noWS l false fun c hc => (h c hc).1]
  rw [titleAux_eq_self_of_noAlpha l false fun c hc => (h c hc).2]

theorem normalizeStr_ratStr (q : ℚ) : normalizeStr (ratStr q) = ratStr q :=
  normalizeStr_eq_self_of_inert _ fun c hc =>
    ⟨isWS_false_of_symbolish c (mem_ratStr q c hc).1 (mem_ratStr q c hc).2,
     isAlphaC_false_of_symbolish c (mem_ratStr q c hc).1 (mem_ratStr q c hc).2⟩

/-! ## Cell-level normalization facts -/

theorem normalizeCell_isNull (c : Cell) : (normalizeCell c).isNull = c.isNull := by
  cases c <;> simp [normalizeCell, Cell.isNull]

theorem normalizeCell_idem (c : Cell) :
    normalizeCell (normalizeCell c) = normalizeCell c := by
  cases c with
  | null => rfl
  | num q =>
    show normalizeCell (Cell.str (normalizeStr (ratStr q))) = _
    simp [normalizeCell, cellToStr, normalizeStr_idem]
  | str s =>
    show normalizeCell (Cell.str (normalizeStr s)) = _
    simp [normalizeCell, cellToStr, normalizeStr_idem]

end MHClean

namespace MHClean

/-! ## Reading and rewriting cells of a row -/

theorem getCell_mapCellAt_ne (cols : List String) (r : List Cell)
    (n c : String) (f : Cell → Cell) (h : n ≠ c) :
    getCell cols (mapCellAt cols r n f) c = getCell cols r c := by
  induction cols generalizing r with
  | nil => simp [mapCellAt]
  | cons cc cs ih =>
    cases r with
    | nil => simp [mapCellAt]
    | cons v vs =>
      rw [mapCellAt, getCell, getCell]
      by_cases hcc : cc = c
      · have hn : ¬cc = n := fun he => h (he.symm.trans hcc)
        simp only [if_pos hcc, if_neg hn]
      · simp only [if_neg hcc]
        exact ih vs

theorem isNull_getCell_mapCellAt (cols : List String) (r : List Cell)
    (n c : String) (f : Cell → Cell) (hf : ∀ x, (f x).isNull = x.isNull) :
    (getCell cols (mapCellAt cols r n f) c).isNull = (getCell cols r c).isNull := by
  induction cols generalizing r with
  | nil => simp [mapCellAt]
  | cons cc cs ih =>
    cases r with
    | nil => simp [mapCellAt]
    | cons v vs =>
      rw [mapCellAt, getCell, getCell]
      by_cases hcc : cc = c
      · by_cases hn : cc = n
        · simp only [if_pos hcc, if_pos hn]
          exact hf v
        · simp only [if_pos hcc, if_neg hn]
      · simp only [if_neg hcc]
        exact ih vs

theorem getCell_self_of_mapCellAt_eq (cols : List String) (r : List Cell)
    (n : String) (f : Cell → Cell) (h : mapCellAt cols r n f = r) :
    (getCell cols r n).isNull = true ∨ f (getCell cols r n) = getCell cols r n := by
  induction cols generalizing r with
  | nil =>
    left
    simp [getCell, Cell.isNull]
  | cons cc cs ih =>
    cases r with
    | nil =>
      left
      simp [getCell, Cell.isNull]
    | cons v vs =>
      rw [mapCellAt] at h
      have hhead := (List.cons.injEq _ _ _ _).mp h
      rw [getCell]
      by_cases hn : cc = n
      · rw [if_pos hn]
        right
        have := hhead.1
        rw [if_pos hn] at this
        exact this
      · rw [if_neg hn]
        exact ih vs hhead.2

theorem mapCellAt_self (cols : List String) (r : List Cell) (n : String)
    (f : Cell → Cell) (hf : ∀ x, f (f x) = f x) :
    mapCellAt cols (mapCellAt cols r n f) n f = mapCellAt cols r n f := by
  induction cols generalizing r with
  | nil => simp [mapCellAt]
  | cons cc cs ih =>
    cases r with
    | nil => simp [mapCellAt]
    | cons v vs =>
      rw [mapCellAt, mapCellAt, ih vs]
      by_cases hn : cc = n
      · simp only [if_pos hn, hf]
      · simp only [if_neg hn]

theorem mapCellAt_preserve_fixed (cols : List String) (r : List Cell)
    (n c : String) (f : Cell → Cell) (h : mapCellAt cols r c f = r) :
    mapCellAt cols (mapCellAt cols r n f) c f = mapCellAt cols r n f := by
  induction cols generalizing r with
  | nil => simp [mapCellAt]
  | cons cc cs ih =>
    cases r with
    | nil => simp [mapCellAt]
    | cons v vs =>
      rw [mapCellAt] at h
      have hhead := (List.cons.injEq _ _ _ _).mp h
      rw [mapCellAt, mapCellAt, ih vs hhead.2]
      by_cases hc : cc = c
      · have hv : f v = v := by
          have := hhead.1
          rw [if_pos hc] at this
          exact this
        by_cases hn : cc = n
        · simp only [if_pos hc, if_pos hn, hv]
        · simp only [if_pos hc, if_neg hn, hv]
      · simp only [if_neg hc]

end MHClean

namespace MHClean

/-! ## Stage-level facts: columns, membership, filters, normalization -/

theorem cols_dropnaEssential (d : Frame) : (dropnaEssential d).cols = d.cols := rfl

theorem cols_normalizeCol (n : String) (d : Frame) :
    (normalizeCol n d).cols = d.cols := by
  unfold normalizeCol
  split <;> rfl

theorem cols_filterIsin (n : String) (a : List PyStr) (d : Frame) :
    (filterIsin n a d).cols = d.cols := by
  unfold filterIsin
  split <;> rfl

theorem cols_filterBetween (n : String) (lo hi : ℚ) (d : Frame) :
    (filterBetween n lo hi d).cols = d.cols := by
  unfold filterBetween
  split <;> rfl

theorem cols_foldl_normalizeCol (L : List String) (d : Frame) :
    (L.foldl (fun d c => normalizeCol c d) d).cols = d.cols := by
  induction L generalizing d with
  | nil => rfl
  | cons n L ih => rw [List.foldl_cons, ih, cols_normalizeCol]

theorem cols_foldl_filterIsin (L : List (String × List PyStr)) (d : Frame) :
    (L.foldl (fun d p => filterIsin p.1 p.2 d) d).cols = d.cols := by
  induction L generalizing d with
  | nil => rfl
  | cons q L ih => rw [List.foldl_cons, ih, cols_filterIsin]

theorem cols_foldl_filterBetween (L : List (String × ℚ × ℚ)) (d : Frame) :
    (L.foldl (fun d p => filterBetween p.1 p.2.1 p.2.2 d) d).cols = d.cols := by
  induction L generalizing d with
  | nil => rfl
  | cons q L ih => rw [List.foldl_cons, ih, cols_filterBetween]

theorem cols_runPipeline (d : Frame) : (runPipeline d).cols = d.cols := by
  unfold runPipeline numericStage categoricalStage normalizeStage
  rw [cols_foldl_filterBetween, cols_foldl_filterIsin, cols_foldl_normalizeCol,
    cols_dropnaEssential]

theorem mem_rows_filterIsin (n : String) (a : List PyStr) (d : Frame)
    (r : List Cell) (hr : r ∈ (filterIsin n a d).rows) : r ∈ d.rows := by
  unfold filterIsin at hr
  split at hr
  · exact (List.mem_filter.mp hr).1
  · exact hr

theorem mem_rows_filterBetween (n : String) (lo hi : ℚ) (d : Frame)
    (r : List Cell) (hr : r ∈ (filterBetween n lo hi d).rows) : r ∈ d.rows := by
  unfold filterBetween at hr
  split at hr
  · exact (List.mem_filter.mp hr).1
  · exact hr

theorem mem_rows_foldl_isin (L : List (String × List PyStr)) (d : Frame)
    (r : List Cell) (hr : r ∈ (L.foldl (fun d p => filterIsin p.1 p.2 d) d).rows) :
    r ∈ d.rows := by
  induction L generalizing d with
  | nil => exact hr
  | cons q L ih =>
    rw [List.foldl_cons] at hr
    exact mem_rows_filterIsin q.1 q.2 d r (ih _ hr)

theorem mem_rows_foldl_between (L : List (String × ℚ × ℚ)) (d : Frame)
    (r : List Cell) (hr : r ∈ (L.foldl (fun d p => filterBetween p.1 p.2.1 p.2.2 d) d).rows) :
    r ∈ d.rows := by
  induction L generalizing d with
  | nil => exact hr
  | cons q L ih =>
    rw [List.foldl_cons] at hr
    exact mem_rows_filterBetween q.1 q.2.1 q.2.2 d r (ih _ hr)

theorem foldl_isin_ok (L : List (String × List PyStr)) (d : Frame)
    (r : List Cell) (hr : r ∈ (L.foldl (fun d p => filterIsin p.1 p.2 d) d).rows) :
    ∀ p ∈ L, d.cols.contains p.1 = true → isinOK p.1 p.2 d.cols r = true := by
  induction L generalizing d with
  | nil =>
    intro p hp
    cases hp
  | cons q L ih =>
    rw [List.foldl_cons] at hr
    intro p hp hcont
    rcases List.mem_cons.mp hp with rfl | hp'
    · have hr' : r ∈ (filterIsin p.1 p.2 d).rows := mem_rows_foldl_isin L _ r hr
      unfold filterIsin at hr'
      rw [if_pos hcont] at hr'
      exact (List.mem_filter.mp hr').2
    · have := ih (filterIsin q.1 q.2 d) hr p hp'
      rw [cols_filterIsin] at this
      exact this hcont

theorem foldl_between_ok (L : List (String × ℚ × ℚ)) (d : Frame)
    (r : List Cell) (hr : r ∈ (L.foldl (fun d p => filterBetween p.1 p.2.1 p.2.2 d) d).rows) :
    ∀ p ∈ L, d.cols.contains p.1 = true →
      betweenOK p.1 p.2.1 p.2.2 d.cols r = true := by
  induction L generalizing d with
  | nil =>
    intro p hp
    cases hp
  | cons q L ih =>
    rw [List.foldl_cons] at hr
    intro p hp hcont
    rcases List.mem_cons.mp hp with rfl | hp'
    · have hr' : r ∈ (filterBetween p.1 p.2.1 p.2.2 d).rows :=
        mem_rows_foldl_between L _ r hr
      unfold filterBetween at hr'
      rw [if_pos hcont] at hr'
      exact (List.mem_filter.mp hr').2
    · have := ih (filterBetween q.1 q.2.1 q.2.2 d) hr p hp'
      rw [cols_filterBetween] at this
      exact this hcont

theorem mapCellAt_not_contains (cols : List String) (r : List Cell)
    (n : String) (f : Cell → Cell) (h : cols.contains n = false) :
    mapCellAt cols r n f = r := by
  induction cols generalizing r with
  | nil =>
    cases r <;> rw [mapCellAt]
  | cons cc cs ih =>
    cases r with
    | nil => simp [mapCellAt]
    | cons v vs =>
      simp only [List.contains_cons, Bool.or_eq_false_iff, beq_eq_false_iff_ne] at h
      rw [mapCellAt, if_neg (fun he => h.1 he.symm), ih vs h.2]

end MHClean

namespace MHClean

/-! ## The normalization stage: invariants established and preserved -/

theorem essRowOK_mapCellAt (cols : List String) (r : List Cell) (n : String) :
    essRowOK cols (mapCellAt cols r n normalizeCell) = essRowOK cols r := by
  unfold essRowOK
  rw [Bool.eq_iff_iff, List.all_eq_true, List.all_eq_true]
  constructor <;> intro h c hc
  · have := h c hc
    rw [isNull_getCell_mapCellAt cols r n c normalizeCell normalizeCell_isNull] at this
    exact this
  · rw [isNull_getCell_mapCellAt cols r n c normalizeCell normalizeCell_isNull]
    exact h c hc

theorem foldl_normalize_pres (P : List Cell → Prop) (L : List String) (d : Frame)
    (hd : ∀ r ∈ d.rows, P r)
    (hstep : ∀ n r, P r → P (mapCellAt d.cols r n normalizeCell)) :
    ∀ r ∈ (L.foldl (fun d c => normalizeCol c d) d).rows, P r := by
  induction L generalizing d with
  | nil => exact hd
  | cons n L ih =>
    rw [List.foldl_cons]
    apply ih (normalizeCol n d)
    · intro r hr
      unfold normalizeCol at hr
      split at hr
      · rcases List.mem_map.mp hr with ⟨r0, hr0, rfl⟩
        exact hstep n r0 (hd r0 hr0)
      · exact hd r hr
    · intro m r hP
      rw [cols_normalizeCol]
      exact hstep m r hP

theorem foldl_normalize_fixed (L : List String) (d : Frame) :
    ∀ r ∈ (L.foldl (fun d c => normalizeCol c d) d).rows, ∀ n ∈ L,
      mapCellAt d.cols r n normalizeCell = r := by
  induction L generalizing d with
  | nil =>
    intro r hr n hn
    cases hn
  | cons m L ih =>
    rw [List.foldl_cons]
    intro r hr n hn
    rcases List.mem_cons.mp hn with rfl | hn'
    · apply foldl_normalize_pres
        (fun r => mapCellAt d.cols r n normalizeCell = r) L (normalizeCol n d)
        ?_ ?_ r hr
      · intro r' hr'
        unfold normalizeCol at hr'
        split at hr'
        · rcases List.mem_map.mp hr' with ⟨r0, hr0, rfl⟩
          exact mapCellAt_self d.cols r0 n normalizeCell normalizeCell_idem
        · next hnc =>
          exact mapCellAt_not_contains d.cols r' n normalizeCell
            (Bool.not_eq_true _ ▸ hnc)
      · intro k r' hP
        rw [cols_normalizeCol]
        exact mapCellAt_preserve_fixed d.cols r' k n normalizeCell hP
    · have := ih (normalizeCol m d) r hr n hn'
      rw [cols_normalizeCol] at this
      exact this

/-! ## Identity of stages on already-clean frames -/

theorem list_map_eq_self {α : Type} (f : α → α) (l : List α)
    (h : ∀ a ∈ l, f a = a) : l.map f = l := by
  induction l with
  | nil => rfl
  | cons a l ih =>
    rw [List.map_cons, h a (List.mem_cons_self a _), ih fun x hx => h x (List.mem_cons_of_mem a hx)]

theorem dropnaEssential_eq_self (d : Frame)
    (h : ∀ r ∈ d.rows, essRowOK d.cols r = true) : dropnaEssential d = d := by
  unfold dropnaEssential
  rw [List.filter_eq_self.mpr h]

theorem normalizeCol_eq_self (n : String) (d : Frame)
    (h : ∀ r ∈ d.rows, mapCellAt d.cols r n normalizeCell = r) :
    normalizeCol n d = d := by
  unfold normalizeCol
  split
  · rw [list_map_eq_self _ _ h]
  · rfl

theorem filterIsin_eq_self (n : String) (a : List PyStr) (d : Frame)
    (h : d.cols.contains n = true → ∀ r ∈ d.rows, isinOK n a d.cols r = true) :
    filterIsin n a d = d := by
  unfold filterIsin
  split
  · next hc => rw [List.filter_eq_self.mpr (h hc)]
  · rfl

theorem filterBetween_eq_self (n : String) (lo hi : ℚ) (d : Frame)
    (h : d.cols.contains n = true → ∀ r ∈ d.rows, betweenOK n lo hi d.cols r = true) :
    filterBetween n lo hi d = d := by
  unfold filterBetween
  split
  · next hc => rw [List.filter_eq_self.mpr (h hc)]
  · rfl

theorem foldl_normalize_eq_self (L : List String) (d : Frame)
    (h : ∀ n ∈ L, ∀ r ∈ d.rows, mapCellAt d.cols r n normalizeCell = r) :
    L.foldl (fun d c => normalizeCol c d) d = d := by
  induction L with
  | nil => rfl
  | cons n L ih =>
    rw [List.foldl_cons, normalizeCol_eq_self n d (h n (List.mem_cons_self n _)),
      ih fun k hk => h k (List.mem_cons_of_mem n hk)]

theorem foldl_isin_eq_self (L : List (String × List PyStr)) (d : Frame)
    (h : ∀ p ∈ L, d.cols.contains p.1 = true →
      ∀ r ∈ d.rows, isinOK p.1 p.2 d.cols r = true) :
    L.foldl (fun d p => filterIsin p.1 p.2 d) d = d := by
  induction L with
  | nil => rfl
  | cons q L ih =>
    rw [List.foldl_cons, filterIsin_eq_self q.1 q.2 d (h q (List.mem_cons_self q _)),
      ih fun p hp => h p (List.mem_cons_of_mem q hp)]

theorem foldl_between_eq_self (L : List (String × ℚ × ℚ)) (d : Frame)
    (h : ∀ p ∈ L, d.cols.contains p.1 = true →
      ∀ r ∈ d.rows, betweenOK p.1 p.2.1 p.2.2 d.cols r = true) :
    L.foldl (fun d p => filterBetween p.1 p.2.1 p.2.2 d) d = d := by
  induction L with
  | nil => rfl
  | cons q L ih =>
    rw [List.foldl_cons,
      filterBetween_eq_self q.1 q.2.1 q.2.2 d (h q (List.mem_cons_self q _)),
      ih fun p hp => h p (List.mem_cons_of_mem q hp)]

end MHClean

namespace MHClean

/-! ## The master invariant of the cleaning pipeline -/

theorem pipeline_invariant (d : Frame) :
    ∀ r ∈ (runPipeline d).rows,
      essRowOK d.cols r = true ∧
      (∀ n ∈ NORMALIZE_TITLE, mapCellAt d.cols r n normalizeCell = r) ∧
      (∀ p ∈ SAFE_FILTER_SETS, d.cols.contains p.1 = true →
        isinOK p.1 p.2 d.cols r = true) ∧
      (∀ p ∈ NUMERIC_BOUNDS, d.cols.contains p.1 = true →
        betweenOK p.1 p.2.1 p.2.2 d.cols r = true) := by
  intro r hr
  have hcols2 : (normalizeStage (dropnaEssential d)).cols = d.cols := by
    unfold normalizeStage
    rw [cols_foldl_normalizeCol, cols_dropnaEssential]
  have hcols3 : (categoricalStage (normalizeStage (dropnaEssential d))).cols = d.cols := by
    unfold categoricalStage
    rw [cols_foldl_filterIsin, hcols2]
  have hr3 : r ∈ (categoricalStage (normalizeStage (dropnaEssential d))).rows := by
    unfold runPipeline numericStage at hr
    exact mem_rows_foldl_between NUMERIC_BOUNDS _ r hr
  have hr2 : r ∈ (normalizeStage (dropnaEssential d)).rows := by
    unfold categoricalStage at hr3
    exact mem_rows_foldl_isin SAFE_FILTER_SETS _ r hr3
  refine ⟨?_, ?_, ?_, ?_⟩
  · have hall : ∀ r' ∈ (normalizeStage (dropnaEssential d)).rows,
        essRowOK d.cols r' = true := by
      unfold normalizeStage
      apply foldl_normalize_pres (fun r' => essRowOK d.cols r' = true)
      · intro r' hr'
        exact (List.mem_filter.mp hr').2
      · intro n r' hP
        rw [cols_dropnaEssential, essRowOK_mapCellAt]
        exact hP
    exact hall r hr2
  · intro n hn
    have := foldl_normalize_fixed NORMALIZE_TITLE (dropnaEssential d) r hr2 n hn
    rw [cols_dropnaEssential] at this
    exact this
  · intro p hp hcont
    have := foldl_isin_ok SAFE_FILTER_SETS (normalizeStage (dropnaEssential d)) r hr3 p hp
    rw [hcols2] at this
    exact this hcont
  · intro p hp hcont
    have := foldl_between_ok NUMERIC_BOUNDS
      (categoricalStage (normalizeStage (dropnaEssential d))) r hr p hp
    rw [hcols3] at this
    exact this hcont

/-! ## Unpacking the row predicates -/

theorem betweenOK_unpack (n : String) (lo hi : ℚ) (cols : List String)
    (r : List Cell) (h : betweenOK n lo hi cols r = true) :
    ∃ q, getCell cols r n = Cell.num q ∧ lo ≤ q ∧ q ≤ hi := by
  unfold betweenOK at h
  cases hg : getCell cols r n with
  | null => rw [hg] at h; cases h
  | num q =>
    rw [hg] at h
    simp only [Bool.and_eq_true, decide_eq_true_eq] at h
    exact ⟨q, rfl, h.1, h.2⟩
  | str s => rw [hg] at h; cases h

theorem isinOK_unpack (n : String) (a : List PyStr) (cols : List String)
    (r : List Cell) (h : isinOK n a cols r = true) :
    ∃ s, getCell cols r n = Cell.str s ∧ a.contains s = true := by
  unfold isinOK at h
  cases hg : getCell cols r n with
  | null => rw [hg] at h; cases h
  | num q => rw [hg] at h; cases h
  | str s =>
    rw [hg] at h
    exact ⟨s, rfl, h⟩

theorem essRowOK_unpack (cols : List String) (r : List Cell)
    (h : essRowOK cols r = true) (c : String) (hc : c ∈ ESSENTIAL_NOT_NULL)
    (hcont : cols.contains c = true) : (getCell cols r c).isNull = false := by
  unfold essRowOK at h
  rw [List.all_eq_true] at h
  have := h c (by
    unfold existingOf
    exact List.mem_filter.mpr ⟨hc, hcont⟩)
  rw [Bool.not_eq_true'] at this
  exact this

theorem isNull_false_iff (c : Cell) : c.isNull = false ↔ c ≠ Cell.null := by
  cases c <;> simp [Cell.isNull]

end MHClean

namespace MHClean

/-! ## The claims -/

/-- C1: every row of the cleaning pipeline's output has, in each bounded
numeric column present in the input, a numeric value inside that column's
closed interval from `NUMERIC_BOUNDS`. -/
theorem c1_numeric_bounds (d : Frame) (r : List Cell)
    (hr : r ∈ (runPipeline d).rows) (n : String) (lo hi : ℚ)
    (hb : (n, lo, hi) ∈ NUMERIC_BOUNDS) (hcont : d.cols.contains n = true) :
    ∃ q, getCell d.cols r n = Cell.num q ∧ lo ≤ q ∧ q ≤ hi :=
  betweenOK_unpack n lo hi d.cols r
    ((pipeline_invariant d r hr).2.2.2 (n, lo, hi) hb hcont)

set_option maxRecDepth 8000 in
/-- Witness for C1: the demo frame's surviving row has its `Age` inside
`[10, 100]`. -/
theorem c1_numeric_bounds_witness :
    ∃ q, getCell demoFrame.cols [Cell.num 50, Cell.str (codes "Male")] "Age" =
      Cell.num q ∧ (10 : ℚ) ≤ q ∧ q ≤ 100 :=
  c1_numeric_bounds demoFrame [Cell.num 50, Cell.str (codes "Male")]
    (by decide) "Age" 10 100 (by decide) (by decide)

/-- C3: every row of the cleaning pipeline's output is non-null in each
essential column present in the input. -/
theorem c3_essential_not_null (d : Frame) (r : List Cell)
    (hr : r ∈ (runPipeline d).rows) (c : String)
    (hc : c ∈ ESSENTIAL_NOT_NULL) (hcont : d.cols.contains c = true) :
    getCell d.cols r c ≠ Cell.null :=
  (isNull_false_iff _).mp
    (essRowOK_unpack d.cols r (pipeline_invariant d r hr).1 c hc hcont)

set_option maxRecDepth 8000 in
/-- Witness for C3: the demo frame's surviving row is non-null in `Gender`. -/
theorem c3_essential_not_null_witness :
    getCell demoFrame.cols [Cell.num 50, Cell.str (codes "Male")] "Gender" ≠
      Cell.null :=
  c3_essential_not_null demoFrame [Cell.num 50, Cell.str (codes "Male")]
    (by decide) "Gender" (by decide) (by decide)

/-- C4: the row counts reported by the pipeline are monotonically
non-increasing across the stages, and the output's row count is the last
reported count. -/
theorem c4_counts_monotone (d : Frame) :
    (pipelineCounts d).1 ≥ (pipelineCounts d).2.1 ∧
    (pipelineCounts d).2.1 ≥ (pipelineCounts d).2.2.1 ∧
    (pipelineCounts d).2.2.1 ≥ (pipelineCounts d).2.2.2 ∧
    (runPipeline d).rows.length = (pipelineCounts d).2.2.2 := by
  have hnorm : ∀ (L : List String) (e : Frame),
      (L.foldl (fun d c => normalizeCol c d) e).rows.length = e.rows.length := by
    intro L
    induction L with
    | nil => intro e; rfl
    | cons n L ih =>
      intro e
      rw [List.foldl_cons, ih]
      unfold normalizeCol
      split
      · exact List.length_map _ _
      · rfl
  have hisin : ∀ (L : List (String × List PyStr)) (e : Frame),
      (L.foldl (fun d p => filterIsin p.1 p.2 d) e).rows.length ≤ e.rows.length := by
    intro L
    induction L with
    | nil => intro e; exact Nat.le_refl _
    | cons q L ih =>
      intro e
      rw [List.foldl_cons]
      refine Nat.le_trans (ih _) ?_
      unfold filterIsin
      split
      · exact List.length_filter_le _ _
      · exact Nat.le_refl _
  have hbet : ∀ (L : List (String × ℚ × ℚ)) (e : Frame),
      (L.foldl (fun d p => filterBetween p.1 p.2.1 p.2.2 d) e).rows.length ≤
        e.rows.length := by
    intro L
    induction L with
    | nil => intro e; exact Nat.le_refl _
    | cons q L ih =>
      intro e
      rw [List.foldl_cons]
      refine Nat.le_trans (ih _) ?_
      unfold filterBetween
      split
      · exact List.length_filter_le _ _
      · exact Nat.le_refl _
  simp only [pipelineCounts]
  refine ⟨List.length_filter_le _ _, ?_, ?_, trivial⟩
  · show (categoricalStage (normalizeStage (dropnaEssential d))).rows.length ≤ _
    unfold categoricalStage
    refine Nat.le_trans (hisin _ _) ?_
    exact Nat.le_of_eq (by unfold normalizeStage; exact hnorm _ _)
  · show (runPipeline d).rows.length ≤ _
    unfold runPipeline numericStage
    exact hbet _ _

/-- C5: no pipeline stage adds or removes a column, so the output frame has
exactly the input's columns in the input's order. -/
theorem c5_columns_preserved (d : Frame) :
    (runPipeline d).cols = d.cols ∧
    (dropnaEssential d).cols = d.cols ∧
    (normalizeStage (dropnaEssential d)).cols = d.cols ∧
    (categoricalStage (normalizeStage (dropnaEssential d))).cols = d.cols := by
  refine ⟨cols_runPipeline d, rfl, ?_, ?_⟩
  · unfold normalizeStage
    rw [cols_foldl_normalizeCol, cols_dropnaEssential]
  · unfold categoricalStage normalizeStage
    rw [cols_foldl_filterIsin, cols_foldl_normalizeCol, cols_dropnaEssential]

/-- C10: the cleaning pipeline is idempotent — run on its own output it
drops no row and changes no cell. -/
theorem c10_idempotent (d : Frame) :
    runPipeline (runPipeline d) = runPipeline d := by
  have hcols := cols_runPipeline d
  have hinv := pipeline_invariant d
  have h1 : dropnaEssential (runPipeline d) = runPipeline d := by
    apply dropnaEssential_eq_self
    intro r hr
    rw [hcols]
    exact (hinv r hr).1
  have h2 : normalizeStage (runPipeline d) = runPipeline d := by
    unfold normalizeStage
    apply foldl_normalize_eq_self
    intro n hn r hr
    rw [hcols]
    exact (hinv r hr).2.1 n hn
  have h3 : categoricalStage (runPipeline d) = runPipeline d := by
    unfold categoricalStage
    apply foldl_isin_eq_self
    intro p hp hcont r hr
    rw [hcols]
    rw [hcols] at hcont
    exact (hinv r hr).2.2.1 p hp hcont
  have h4 : numericStage (runPipeline d) = runPipeline d := by
    unfold numericStage
    apply foldl_between_eq_self
    intro p hp hcont r hr
    rw [hcols]
    rw [hcols] at hcont
    exact (hinv r hr).2.2.2 p hp hcont
  show numericStage (categoricalStage (normalizeStage (dropnaEssential (runPipeline d)))) =
    runPipeline d
  rw [h1, h2, h3, h4]

end MHClean

namespace MHClean

/-- C2 (as stated) is false: the `Country` column is normalized but has no
allowed set in `SAFE_FILTER_SETS`, and a value no set allows survives
cleaning. -/
theorem c2_counterexample : ¬claimCategoricalInAllowedSet := by
  intro h
  have := h countryFrame [Cell.str (codes "Xyzland")] (by decide) "Country"
    (by decide) (by decide)
  obtain ⟨s, allowed, hcell, hnorm, hmem, hsmem⟩ := this
  simp only [SAFE_FILTER_SETS, List.mem_cons, List.not_mem_nil, or_false,
    Prod.mk.injEq] at hmem
  rcases hmem with ⟨h1, h2⟩ | ⟨h1, h2⟩ | ⟨h1, h2⟩ <;> exact absurd h1 (by decide)

/-- C2 (amended): every normalized categorical column present in the input
holds, in every output row, a string fixed by the normalization transform
(stripped, whitespace-collapsed, title-cased), and for the columns that
`SAFE_FILTER_SETS` constrains the string belongs to the allowed set. -/
theorem c2_amended (d : Frame) (r : List Cell) (hr : r ∈ (runPipeline d).rows)
    (c : String) (hc : c ∈ NORMALIZE_TITLE) (hcont : d.cols.contains c = true) :
    ∃ s, getCell d.cols r c = Cell.str s ∧ normalizeStr s = s ∧
      ∀ allowed, (c, allowed) ∈ SAFE_FILTER_SETS → allowed.contains s = true := by
  obtain ⟨hess, hfix, hisin, _⟩ := pipeline_invariant d r hr
  have hcEss : c ∈ ESSENTIAL_NOT_NULL := by
    have hsub : ∀ x ∈ NORMALIZE_TITLE, x ∈ ESSENTIAL_NOT_NULL := by decide
    exact hsub c hc
  have hnn := essRowOK_unpack d.cols r hess c hcEss hcont
  have hvne : getCell d.cols r c ≠ Cell.null := (isNull_false_iff _).mp hnn
  rcases getCell_self_of_mapCellAt_eq d.cols r c normalizeCell (hfix c hc) with
    hnull | hfxcell
  · rw [hnn] at hnull
    cases hnull
  · rw [normalizeCell, if_neg hvne] at hfxcell
    refine ⟨normalizeStr (cellToStr (getCell d.cols r c)), hfxcell.symm,
      normalizeStr_idem _, ?_⟩
    intro allowed hall
    obtain ⟨s', hs', hmem⟩ := isinOK_unpack c allowed d.cols r
      (hisin (c, allowed) hall hcont)
    have : Cell.str (normalizeStr (cellToStr (getCell d.cols r c))) = Cell.str s' :=
      hfxcell.trans hs'
    rw [Cell.str.injEq] at this
    rw [this]
    exact hmem

set_option maxRecDepth 8000 in
/-- Witness for C2 (amended): the demo frame's surviving row holds the
normal-form string `Male` in `Gender`, inside the allowed gender set. -/
theorem c2_amended_witness :
    ∃ s, getCell demoFrame.cols [Cell.num 50, Cell.str (codes "Male")] "Gender" =
      Cell.str s ∧ normalizeStr s = s ∧
      ∀ allowed, ("Gender", allowed) ∈ SAFE_FILTER_SETS →
        allowed.contains s = true :=
  c2_amended demoFrame [Cell.num 50, Cell.str (codes "Male")] (by decide)
    "Gender" (by decide) (by decide)

end MHClean

namespace MHClean

/-- C9: `normalize_text` keeps the column's length, leaves null entries
exactly as they are, and replaces each non-null entry by its stringified,
stripped, whitespace-collapsed, title-cased form. -/
theorem c9_normalize_text (l : List Cell) :
    (normalize_text l).length = l.length ∧
    (∀ i : Nat, l[i]? = some Cell.null → (normalize_text l)[i]? = some Cell.null) ∧
    (∀ i : Nat, ∀ c : Cell, l[i]? = some c → c ≠ Cell.null →
      (normalize_text l)[i]? =
        some (Cell.str (titleCase (collapse (strip (cellToStr c)))))) := by
  refine ⟨List.length_map _ _, ?_, ?_⟩
  · intro i hi
    rw [normalize_text, List.getElem?_map, hi]
    rfl
  · intro i c hc hne
    rw [normalize_text, List.getElem?_map, hc]
    show some (normalizeCell c) = _
    rw [normalizeCell, if_neg hne]
    rfl

set_option maxRecDepth 8000 in
/-- Witness for C9: the second entry of a two-cell column is normalized to
the title-cased, whitespace-collapsed form. -/
theorem c9_normalize_text_witness :
    (normalize_text [Cell.null, Cell.str (codes "  hiGH  low ")])[1]? =
      some (Cell.str (titleCase (collapse (strip (cellToStr
        (Cell.str (codes "  hiGH  low "))))))) :=
  (c9_normalize_text [Cell.null, Cell.str (codes "  hiGH  low ")]).2.2 1
    (Cell.str (codes "  hiGH  low ")) (by decide) (by decide)

/-! ## The argument parser requires both options -/

theorem parseLoop_ok_input (args : List String) (pend : Pending)
    (i o : Option String) (r : String × String)
    (h : parseLoop args pend i o = Except.ok r) :
    i ≠ none ∨ pend = Pending.inp ∨ ∃ a ∈ args, a = "--input" ∨ a = "-i" := by
  induction args generalizing pend i o with
  | nil =>
    cases pend <;> cases i <;> cases o <;> simp_all [parseLoop]
  | cons a rest ih =>
    cases pend with
    | inp =>
      right
      left
      rfl
    | out =>
      rw [parseLoop] at h
      rcases ih _ _ _ h with hi | hp | ⟨x, hx, hfx⟩
      · left
        exact hi
      · cases hp
      · right; right
        exact ⟨x, List.mem_cons_of_mem a hx, hfx⟩
    | nothing =>
      rw [parseLoop] at h
      split at h
      · next hcond =>
        right; right
        refine ⟨a, List.mem_cons_self a _, ?_⟩
        simpa using hcond
      · split at h
        · rcases ih _ _ _ h with hi | hp | ⟨x, hx, hfx⟩
          · left
            exact hi
          · cases hp
          · right; right
            exact ⟨x, List.mem_cons_of_mem a hx, hfx⟩
        · cases h

theorem parseLoop_ok_output (args : List String) (pend : Pending)
    (i o : Option String) (r : String × String)
    (h : parseLoop args pend i o = Except.ok r) :
    o ≠ none ∨ pend = Pending.out ∨ ∃ a ∈ args, a = "--output" ∨ a = "-o" := by
  induction args generalizing pend i o with
  | nil =>
    cases pend <;> cases i <;> cases o <;> simp_all [parseLoop]
  | cons a rest ih =>
    cases pend with
    | out =>
      right
      left
      rfl
    | inp =>
      rw [parseLoop] at h
      rcases ih _ _ _ h with ho | hp | ⟨x, hx, hfx⟩
      · left
        exact ho
      · cases hp
      · right; right
        exact ⟨x, List.mem_cons_of_mem a hx, hfx⟩
    | nothing =>
      rw [parseLoop] at h
      split at h
      · rcases ih _ _ _ h with ho | hp | ⟨x, hx, hfx⟩
        · left
          exact ho
        · cases hp
        · right; right
          exact ⟨x, List.mem_cons_of_mem a hx, hfx⟩
      · split at h
        · next hcond =>
          right; right
          refine ⟨a, List.mem_cons_self a _, ?_⟩
          simpa using hcond
        · cases h

end MHClean

namespace MHClean

/-- C6: the CLI's parse succeeds only when both an input flag and an output
flag occur among the arguments, and a successful run emits exactly the
six fixed-format report lines: header, the four stage counts, and the
output path. -/
theorem c6_cli :
    (∀ args i o, parseArgs args = Except.ok (i, o) →
      (∃ a ∈ args, a = "--input" ∨ a = "-i") ∧
      (∃ a ∈ args, a = "--output" ∨ a = "-o")) ∧
    (∀ args input df rep, cliMain args input = Except.ok (df, rep) →
      df = runPipeline input ∧
      rep.length = 6 ∧
      rep[0]? = some "=== Cleaning Report ===" ∧
      rep[1]? = some ("Input rows:            " ++ toString input.rows.length) ∧
      rep[2]? = some ("After dropna (essential cols only): " ++
        toString (dropnaEssential input).rows.length) ∧
      rep[3]? = some ("After categorical fix: " ++
        toString (categoricalStage (normalizeStage (dropnaEssential input))).rows.length) ∧
      rep[4]? = some ("After numeric bounds:  " ++
        toString (runPipeline input).rows.length) ∧
      ∃ i o, parseArgs args = Except.ok (i, o) ∧
        rep[5]? = some ("Output saved to:       " ++ o)) := by
  constructor
  · intro args i o h
    constructor
    · rcases parseLoop_ok_input args .nothing none none (i, o) h with hi | hp | hf
      · exact absurd rfl hi
      · cases hp
      · exact hf
    · rcases parseLoop_ok_output args .nothing none none (i, o) h with ho | hp | hf
      · exact absurd rfl ho
      · cases hp
      · exact hf
  · intro args input df rep h
    unfold cliMain at h
    cases hp : parseArgs args with
    | error e =>
      rw [hp] at h
      cases h
    | ok io =>
      obtain ⟨i0, o0⟩ := io
      rw [hp] at h
      rw [Except.ok.injEq, Prod.mk.injEq] at h
      obtain ⟨hdf, hrep⟩ := h
      subst hrep
      refine ⟨hdf.symm, ?_, ?_, ?_, ?_, ?_, ?_, i0, o0, rfl, ?_⟩ <;>
        simp [cleaningReport, pipelineCounts]

set_option maxRecDepth 8000 in
/-- Witness for C6: a concrete parse of `-i a -o b` contains both flags. -/
theorem c6_cli_witness :
    (∃ a ∈ ["-i", "a", "-o", "b"], a = "--input" ∨ a = "-i") ∧
    (∃ a ∈ ["-i", "a", "-o", "b"], a = "--output" ∨ a = "-o") :=
  c6_cli.1 ["-i", "a", "-o", "b"] "a" "b" (by rfl)

end MHClean

namespace MHApp

open MHClean

/-! ## Dashboard loading and chart guards -/

theorem firstExisting_some_mem (ex : String → Bool) (L : List String)
    (p : String) (h : firstExisting ex L = some p) : p ∈ L ∧ ex p = true := by
  induction L with
  | nil => cases h
  | cons q L ih =>
    rw [firstExisting] at h
    split at h
    · next hc =>
      injection h with h2
      subst h2
      exact ⟨List.mem_cons_self q _, (Bool.and_eq_true _ _ |>.mp hc).2⟩
    · have := ih h
      exact ⟨List.mem_cons_of_mem q this.1, this.2⟩

theorem firstExisting_none (ex : String → Bool) (L : List String)
    (h : ∀ p ∈ L, ex p = false) : firstExisting ex L = none := by
  induction L with
  | nil => rfl
  | cons q L ih =>
    rw [firstExisting,
      if_neg (by simp [h q (List.mem_cons_self q _)]),
      ih fun p hp => h p (List.mem_cons_of_mem q hp)]

/-- C7: `load_data` returns the CSV contents of the first existing
candidate path; when no candidate exists it raises `FileNotFoundError`,
which the top-level handler turns into an error message that halts the
session's rendering without ending the process. -/
theorem c7_load_data :
    (∀ (pathExists : String → Bool) (readCSV : String → Frame) baseDir p,
      firstExisting pathExists (candidatePaths baseDir) = some p →
      load_data pathExists readCSV baseDir = Except.ok (readCSV p) ∧
      appStart pathExists readCSV baseDir = Session.rendered (readCSV p) ∧
      pathExists p = true ∧ p ∈ candidatePaths baseDir) ∧
    (∀ (pathExists : String → Bool) (readCSV : String → Frame) baseDir,
      (∀ p ∈ candidatePaths baseDir, pathExists p = false) →
      load_data pathExists readCSV baseDir = Except.error fileNotFoundMsg ∧
      appStart pathExists readCSV baseDir = Session.halted fileNotFoundMsg) := by
  constructor
  · intro pathExists readCSV baseDir p h
    have hmem := firstExisting_some_mem pathExists _ p h
    refine ⟨?_, ?_, hmem.2, hmem.1⟩
    · unfold load_data
      rw [h]
    · unfold appStart load_data
      rw [h]
  · intro pathExists readCSV baseDir h
    have hnone := firstExisting_none pathExists _
      fun p hp => h p hp
    constructor
    · unfold load_data
      rw [hnone]
    · unfold appStart load_data
      rw [hnone]

/-- Witness for C7: with no candidate path existing, the session halts with
the file-not-found message. -/
theorem c7_load_data_witness :
    load_data (fun _ => false) (fun _ => demoFrame) "/app" =
      Except.error fileNotFoundMsg ∧
    appStart (fun _ => false) (fun _ => demoFrame) "/app" =
      Session.halted fileNotFoundMsg :=
  c7_load_data.2 (fun _ => false) (fun _ => demoFrame) "/app" fun p _ => rfl

/-- C8 (as stated) is false: the Member 1 scatter branch reads `Gender`,
`Age_Group`, `Sleep Hours` and `Stress Level` without presence guards, so
on a frame lacking `Gender` it escapes with a `KeyError`. -/
theorem c8_counterexample : ¬allChartsGuardMissingColumns := by
  intro h
  exact absurd (h.2.2.2 ["Age"]) (by decide)

/-- C8 (amended): the three Member 3 chart functions guard every column
they need (given the UI's constraint on the gender selection) and never
raise, while the Member 1 scatter branch raises a `KeyError` exactly when
one of its four columns is missing. -/
theorem c8_amended :
    (∀ d dims, (chart_scatter_matrix d dims).isRaise = false) ∧
    (∀ d, (chart_heatmap d).isRaise = false) ∧
    (∀ d sel, sel = codes "All" ∨ d.cols.contains "Gender" = true →
      (chart_violin d sel).isRaise = false) ∧
    (∀ cols, (member1ScatterBranch cols).isRaise = true ↔
      ¬(cols.contains "Gender" = true ∧ cols.contains "Age_Group" = true ∧
        cols.contains "Sleep Hours" = true ∧
        cols.contains "Stress Level" = true)) := by
  refine ⟨?_, ?_, ?_, ?_⟩
  · intro d dims
    unfold chart_scatter_matrix
    split
    · rfl
    · split
      · rfl
      · split <;> rfl
  · intro d
    unfold chart_heatmap
    split
    · rfl
    · split
      · rfl
      · split <;> rfl
  · intro d sel hsel
    unfold chart_violin
    split
    · rfl
    · split
      · rfl
      · split
        · next hcond =>
          exfalso
          rw [Bool.and_eq_true] at hcond
          obtain ⟨hne, hnc⟩ := hcond
          rw [decide_eq_true_eq] at hne
          rw [Bool.not_eq_true'] at hnc
          rcases hsel with rfl | hg
          · exact hne rfl
          · rw [hg] at hnc
            cases hnc
        · split <;> (dsimp only; split <;> rfl)
  · intro cols
    by_cases h1 : "Gender" ∈ cols <;>
      by_cases h2 : "Age_Group" ∈ cols <;>
        by_cases h3 : "Sleep Hours" ∈ cols <;>
          by_cases h4 : "Stress Level" ∈ cols <;>
            simp [member1ScatterBranch, Render.isRaise, h1, h2, h3, h4]

/-- Witness for C8 (amended): the violin chart with the `All` selection
does not raise, and the fully-populated Member 1 branch does not raise. -/
theorem c8_amended_witness :
    (chart_violin (Frame.mk ["Happiness Score", "Exercise Level"]
        [[Cell.num 5, Cell.str (codes "Low")]])
      (codes "All")).isRaise = false ∧
    ((member1ScatterBranch
        ["Gender", "Age_Group", "Sleep Hours", "Stress Level"]).isRaise = true ↔
      ¬((["Gender", "Age_Group", "Sleep Hours", "Stress Level"] :
          List String).contains "Gender" = true ∧
        (["Gender", "Age_Group", "Sleep Hours", "Stress Level"] :
          List String).contains "Age_Group" = true ∧
        (["Gender", "Age_Group", "Sleep Hours", "Stress Level"] :
          List String).contains "Sleep Hours" = true ∧
        (["Gender", "Age_Group", "Sleep Hours", "Stress Level"] :
          List String).contains "Stress Level" = true)) :=
  ⟨c8_amended.2.2.1 _ (codes "All") (Or.inl rfl),
   c8_amended.2.2.2 ["Gender", "Age_Group", "Sleep Hours", "Stress Level"]⟩

end MHApp
